import Mathlib

/-!
# chatclient.c: a shallow embedding of the chat client

The client of `src/chat/chatclient.c` reads a display name, registers it with
the server, starts a receiver thread and then runs an interactive console.

Conventions of the embedding:

* a C `char` array (an object in memory) is a `List Char`; a pointer into the
  object is the suffix of the list that starts at the pointed element, so
  `p + 1` is the tail of `p`;
* a library call that would read or write outside its object is undefined
  behaviour in C; the embedding returns `none` there;
* what the program does to the outside world (terminal output, writes to the
  socket, calls of the thread library) is recorded as a list of `Event`s, in
  program order.
-/

namespace ChatClient

/-- A `char` array; a pointer into it is the suffix starting at the pointee. -/
abbrev Mem := List Char

/-- The string terminator. -/
def NUL : Char := Char.ofNat 0

/-- The line terminator. -/
def NL : Char := Char.ofNat 10

/-- The space character, the delimiter that `console` searches for. -/
def SP : Char := Char.ofNat 32

/-- `#define BUFF_SIZE 256` -/
def BUFF_SIZE : Nat := 256

/-- `#define USERNAME_MAX_SIZE 20` -/
def USERNAME_MAX_SIZE : Nat := 20

/-- A string literal as the object the compiler lays down: its characters
followed by the terminator. -/
def lit (s : String) : Mem := s.toList ++ [NUL]

/-! ## The C library functions the program calls -/

/-- The C string that starts at `p`: the characters before the first NUL, or
`none` when the object ends before any NUL (reading on is out of bounds). -/
def cstr : Mem → Option (List Char)
  | [] => none
  | c :: cs => if c = NUL then some [] else (cstr cs).map (fun s => c :: s)

/-- `strlen(p)`. -/
def strlen (p : Mem) : Option Nat := (cstr p).map List.length

/-- `strncmp(a, b, n)`: the difference of the first pair of characters that
differ among the first `n`, stopping after a NUL; `0` when there is none.
The last case, an object that ends before a NUL or the bound is met, is not
reached in this program: the literals and the buffer all hold a NUL. -/
def strncmp : Mem → Mem → Nat → Int
  | _, _, 0 => 0
  | a :: as, b :: bs, n + 1 =>
    if a ≠ b then (a.toNat : Int) - (b.toNat : Int)
    else if a = NUL then 0
    else strncmp as bs n
  | _, _, _ + 1 => 0

/-- `strcmp(a, b)`: as `strncmp` without the bound; the last case is not
reached for objects that hold a NUL. -/
def strcmp : Mem → Mem → Int
  | a :: as, b :: bs =>
    if a ≠ b then (a.toNat : Int) - (b.toNat : Int)
    else if a = NUL then 0
    else strcmp as bs
  | _, _ => 0

/-- `strchr(p, c)`: a pointer to the first `c` of the string at `p`, or `none`
(the null pointer) when the string has none. -/
def strchr : Mem → Char → Option Mem
  | [], _ => none
  | x :: xs, c =>
    if x = c then some (x :: xs)
    else if x = NUL then none
    else strchr xs c

/-- The characters one `fgets` call takes from the stream when it may store at
most `n` of them: up to and including the first newline. -/
def readLine : Nat → List Char → List Char
  | 0, _ => []
  | _ + 1, [] => []
  | n + 1, c :: cs => if c = NL then [c] else c :: readLine n cs

/-- `fgets(s, size, stdin)`: at most `size - 1` characters of the stream go to
the start of `s`, followed by a NUL; at end of input nothing is read and `s`
is left as it was. Returns the array and the rest of the stream. -/
def fgets (s : Mem) (size : Nat) (stream : List Char) : Mem × List Char :=
  let got := readLine (size - 1) stream
  if got = [] then (s, stream)
  else (got ++ NUL :: s.drop (got.length + 1), stream.drop got.length)

/-- `s[strlen(s) - 1] = 0`, the statement that follows both `fgets` calls.
`strlen` is a `size_t`: for an empty string the index wraps around and the
store lands outside the array. -/
def strip (s : Mem) : Option Mem := do
  let n ← strlen s
  if n = 0 then none else some (s.set (n - 1) NUL)

/-! ## The effects of the program -/

/-- What the program does to the outside world, one constructor per call. -/
inductive Event
  /-- Text sent to standard output by `printf`. -/
  | stdout (text : List Char)
  /-- Text sent to standard error by `fprintf`. -/
  | stderr (text : List Char)
  /-- The call `write(sockfd, buf, count)`: `buf` is the object the pointer
  points into, from the pointee on, and `count` the byte count passed. -/
  | write (buf : Mem) (count : Nat)
  | pthread_cond_init
  | pthread_mutex_init
  | pthread_mutex_lock
  | pthread_mutex_unlock
  | pthread_cond_wait
  | pthread_cond_signal
  | pthread_mutex_destroy
  | pthread_cond_destroy
  | socket
  | bind
  | connect
  /-- The call `pthread_create(&receiver_thread, NULL, receiver, &sockfd)`. -/
  | pthread_create
  deriving DecidableEq, Repr

/-- The bytes a `write(sockfd, buf, count)` sends: the first `count` bytes of
the object, or `none` when `count` reaches past its end. -/
def payload (buf : Mem) (count : Nat) : Option (List Char) :=
  if count ≤ buf.length then some (buf.take count) else none

/-- The `write` calls among some events, as pairs of object and byte count. -/
def writes : List Event → List (Mem × Nat)
  | [] => []
  | Event.write buf count :: es => (buf, count) :: writes es
  | _ :: es => writes es

/-- How one pass through the body of the `while(1)` of `console` ends. -/
inductive Control
  /-- Back to the top of the loop: the next prompt is issued. -/
  | loop
  /-- The process is gone: `_exit(EXIT_SUCCESS)` was called. -/
  | exited
  deriving DecidableEq, Repr

/-! ## console -/

/-- The text `error()` prints; `fprintf(stderr, "%s\n", ...)` adds the last
newline. -/
def usage : List Char :=
  "bad command\nsyntax: [command] [optional recipient] [optional msg]\n".toList

/-- `void error(void)` -/
def error : List Event := [Event.stderr usage]

/-- The body of the loop of `console` from the first `if` on: what is done
with the line that is in `buffer`. -/
def console_dispatch (buffer : Mem) : Option (List Event × Control) :=
  if strcmp buffer (lit "") = 0 then
    some ([], Control.loop)
  else if strncmp buffer (lit "exit") 4 = 0 then
    some ([Event.write (lit "exit") 6, Event.pthread_mutex_destroy,
      Event.pthread_cond_destroy], Control.exited)
  else if strncmp buffer (lit "ls") 2 = 0 then
    some ([Event.pthread_mutex_lock, Event.write (lit "ls") 2,
      Event.pthread_cond_wait, Event.pthread_mutex_unlock], Control.loop)
  else if strncmp buffer (lit "send ") 5 = 0 then
    match strchr buffer SP with
    | none => some (error, Control.loop)
    | some tmp =>
      let recipient := tmp.tail
      match strchr recipient SP with
      | none => some (error, Control.loop)
      | some tmp =>
        let msg := tmp.tail
        do
          let lr ← strlen recipient
          let lm ← strlen msg
          some ([Event.write buffer (5 + lr + 1 + lm + 1)], Control.loop)
  else
    some (error, Control.loop)

/-- The prompt: `printf("[%s]$ ", username)`. -/
def prompt (name : List Char) : Event :=
  Event.stdout ("[".toList ++ name ++ "]$ ".toList)

/-- One pass through the body of the `while(1)` of `console`: the prompt, the
`fgets`, the stripping of the last character, and the dispatch. Returns the
events, how the pass ends, and the buffer and the input that are left. -/
def console_iter (username buffer : Mem) (stdin : List Char) :
    Option (List Event × Control × Mem × List Char) := do
  let name ← cstr username
  let (buffer, stdin) := fgets buffer BUFF_SIZE stdin
  let buffer ← strip buffer
  let (events, control) ← console_dispatch buffer
  some (prompt name :: events, control, buffer, stdin)

/-- The loop of `console`, run for at most `fuel` passes. -/
def console_loop : Nat → Mem → Mem → List Char →
    Option (List Event × Control × List Char)
  | 0, _, _, stdin => some ([], Control.loop, stdin)
  | fuel + 1, username, buffer, stdin => do
    let (events, control, buffer, stdin) ← console_iter username buffer stdin
    match control with
    | Control.exited => some (events, Control.exited, stdin)
    | Control.loop => do
      let (more, control, stdin) ← console_loop fuel username buffer stdin
      some (events ++ more, control, stdin)

/-- The text `console` prints before its loop. -/
def welcome : List Char :=
  ("Welcome to chat client console. Please enter commands\n" ++
    "syntax: [command] [optional recipient] [optional msg]\n").toList

/-- `void console(int sockfd)`, its loop run for at most `fuel` passes: the
buffer is zeroed, the welcome text printed, and the loop entered. -/
def console (fuel : Nat) (username : Mem) (stdin : List Char) :
    Option (List Event × Control × List Char) := do
  let buffer := List.replicate BUFF_SIZE NUL
  let (events, control, stdin) ← console_loop fuel username buffer stdin
  some (Event.stdout welcome :: events, control, stdin)

/-! ## register_username, receiver, main -/

/-- A block of `size` bytes from `malloc`. Its contents are indeterminate in
C: they are whatever `junk` holds. -/
def malloc (size : Nat) (junk : Mem) : Mem :=
  (junk ++ List.replicate size NUL).take size

/-- `sprintf(dst, "register username %s", username)`: the formatted text and
its NUL go to the start of `dst`; `none` when they do not fit. -/
def sprintf (dst username : Mem) : Option Mem := do
  let name ← cstr username
  let out := "register username ".toList ++ name ++ [NUL]
  if out.length ≤ dst.length then some (out ++ dst.drop out.length) else none

/-- `void register_username(int sockfd)`, the global `username` passed in. -/
def register_username (junk username : Mem) : Option (List Event) := do
  let regstring := malloc (USERNAME_MAX_SIZE + 18) junk
  let regstring ← sprintf regstring username
  let n ← strlen regstring
  some [Event.write regstring n]

/-- `read(sockfd, buf, count)` when the connection delivers `incoming`:
`none` is a failed read (result `-1`), `some data` the bytes that are
available, of which at most `count` are stored. Returns the result and the
buffer. -/
def read (buf : Mem) (count : Nat) : Option (List Char) → Int × Mem
  | none => (-1, buf)
  | some data =>
    let got := data.take count
    ((got.length : Int), got ++ buf.drop got.length)

/-- One pass through the loop of `receiver`: zero the buffer, read, and, when
something was read, print it and signal the condition under the lock. -/
def receiver_iter (incoming : Option (List Char)) : Option (List Event) :=
  let buffer := List.replicate BUFF_SIZE NUL
  let (readlen, buffer) := read buffer BUFF_SIZE incoming
  if readlen < 1 then some []
  else do
    let text ← cstr buffer
    some [Event.pthread_mutex_lock, Event.stdout (text ++ [NL]),
      Event.pthread_cond_signal, Event.pthread_mutex_unlock]

/-- The text `main` prints to ask for the name. -/
def ask : List Char := "Enter a username (max 20 characters, no spaces):\n".toList

/-- The two statements of `main` that fill the global `username`, which is
static and so starts zeroed: `fgets` and the stripping of the last character.
Returns the array and the input that is left. -/
def read_username (stdin : List Char) : Option (Mem × List Char) := do
  let username := List.replicate USERNAME_MAX_SIZE NUL
  let (username, stdin) := fgets username USERNAME_MAX_SIZE stdin
  let username ← strip username
  some (username, stdin)

/-- `main` up to the call of `console`: the events, the stored name and the
input that is left for `console`. -/
def main_boot (junk : Mem) (stdin : List Char) :
    Option (List Event × Mem × List Char) := do
  let (username, stdin) ← read_username stdin
  let registration ← register_username junk username
  some ([Event.pthread_cond_init, Event.pthread_mutex_init, Event.socket,
      Event.bind, Event.connect, Event.stdout ask] ++ registration ++
      [Event.pthread_create], username, stdin)

/-- `int main(void)`, the loop of `console` run for at most `fuel` passes. -/
def main (fuel : Nat) (junk : Mem) (stdin : List Char) :
    Option (List Event × Control × List Char) := do
  let (events, username, stdin) ← main_boot junk stdin
  let (more, control, stdin) ← console fuel username stdin
  some (events ++ more, control, stdin)

/-! ## Vocabulary of the statements -/

/-- A line of text as the operator types it, without its newline: it holds no
newline and no NUL, and `fgets` can store it with its newline and the
terminator in the `BUFF_SIZE` bytes of the buffer. -/
def IsLine (l : List Char) : Prop :=
  NL ∉ l ∧ NUL ∉ l ∧ l.length + 2 ≤ BUFF_SIZE

instance (l : List Char) : Decidable (IsLine l) := by
  unfold IsLine
  infer_instance

/-- The buffer of `console` once the line `l` was read into `buffer` and its
newline overwritten: the line, the NUL that replaces the newline, the NUL of
`fgets`, and what the buffer held further on. -/
def lineBuffer (l : List Char) (buffer : Mem) : Mem :=
  l ++ NUL :: NUL :: buffer.drop (l.length + 2)

/-- The first space-delimited token of a line: what stands before its first
space. -/
def firstToken (l : List Char) : List Char :=
  l.takeWhile (fun c => c ≠ SP)

/-- A line that fits the buffer and whose send overruns it: `send bob `
followed by 123 times the letter `m`, 132 characters in all. -/
def longSend : List Char :=
  "send bob ".toList ++ List.replicate 123 (Char.ofNat 109)

/-- The events of `main` before `register_username` is called. -/
def bootEvents : List Event :=
  [Event.pthread_cond_init, Event.pthread_mutex_init, Event.socket,
    Event.bind, Event.connect, Event.stdout ask]

/-- A sample content of the `username` array: the name `bob` as `main` stores
it in the 20 bytes. -/
def bob : Mem := "bob".toList ++ List.replicate 17 NUL

/-- The buffer of `console` after its `memset`. -/
def zeroed : Mem := List.replicate BUFF_SIZE NUL

/-- The block of `register_username` once `sprintf` has formatted the name
into it: the text, its NUL, and what `malloc` left behind them. -/
def formatted (junk : Mem) (name : List Char) : Mem :=
  "register username ".toList ++ name ++ [NUL] ++
    (malloc (USERNAME_MAX_SIZE + 18) junk).drop
      (("register username ".toList ++ name ++ [NUL]).length)

/-! ## Lemmas on the library functions -/

theorem NUL_ne_SP : NUL ≠ SP := by decide

theorem NUL_ne_NL : NUL ≠ NL := by decide

theorem toNat_sub_ne_zero {a b : Char} (h : a ≠ b) :
    (a.toNat : Int) - (b.toNat : Int) ≠ 0 := by
  intro e
  apply h
  have e2 : a.toNat = b.toNat := by omega
  have e3 := congrArg Char.ofNat e2
  simpa [Char.ofNat_toNat] using e3

/-- A NUL-free text followed by a NUL is the C string at its start. -/
theorem cstr_append_nul (l t : List Char) (h : NUL ∉ l) :
    cstr (l ++ NUL :: t) = some l := by
  induction l with
  | nil => simp [cstr]
  | cons c cs ih =>
    have hc : c ≠ NUL := fun e => h (by simp [e])
    have hcs : NUL ∉ cs := fun m => h (by simp [m])
    simp [cstr, hc, ih hcs]

theorem strlen_append_nul (l t : List Char) (h : NUL ∉ l) :
    strlen (l ++ NUL :: t) = some l.length := by
  simp [strlen, cstr_append_nul l t h]

/-- A string that `cstr` finds is NUL-free and lies at the start of the
object, followed by a NUL. -/
theorem cstr_some (m : Mem) (s : List Char) (h : cstr m = some s) :
    NUL ∉ s ∧ ∃ t, m = s ++ NUL :: t := by
  induction m generalizing s with
  | nil => simp [cstr] at h
  | cons c cs ih =>
    by_cases hc : c = NUL
    · simp [cstr, hc] at h
      subst h
      exact ⟨by simp, cs, by simp [hc]⟩
    · simp only [cstr, hc, if_false, Option.map_eq_some'] at h
      obtain ⟨s', hs', rfl⟩ := h
      obtain ⟨hn, t, ht⟩ := ih s' hs'
      refine ⟨?_, t, by simp [ht]⟩
      intro hm
      rcases List.mem_cons.mp hm with e | e
      · exact hc e.symm
      · exact hn e

/-- `strcmp(buffer, "") == 0` exactly when the line in the buffer is empty. -/
theorem strcmp_empty (l t : List Char) (h : NUL ∉ l) :
    strcmp (l ++ NUL :: t) (lit "") = 0 ↔ l = [] := by
  cases l with
  | nil => simp [strcmp, lit]
  | cons c cs =>
    have hc : c ≠ NUL := fun e => h (by simp [e])
    simp [strcmp, lit, hc, toNat_sub_ne_zero hc]

/-- `strncmp(buffer, w, strlen(w)) == 0` exactly when the line in the buffer
begins with the characters of `w`. -/
theorem strncmp_zero_iff (w l t : List Char) (hw : NUL ∉ w) (h : NUL ∉ l) :
    strncmp (l ++ NUL :: t) (w ++ [NUL]) w.length = 0 ↔ w <+: l := by
  induction w generalizing l with
  | nil => simp [strncmp]
  | cons a w ih =>
    have ha : a ≠ NUL := fun e => hw (by simp [e])
    have hw2 : NUL ∉ w := fun m => hw (by simp [m])
    cases l with
    | nil =>
      have : NUL ≠ a := fun e => ha e.symm
      simp [strncmp, this, toNat_sub_ne_zero this]
    | cons c cs =>
      have hc : c ≠ NUL := fun e => h (by simp [e])
      have hcs : NUL ∉ cs := fun m => h (by simp [m])
      by_cases hca : c = a
      · subst hca
        simp [strncmp, hc, ih cs hw2 hcs, List.cons_prefix_cons]
      · have : ¬ (a :: w) <+: (c :: cs) := by
          intro hp
          rw [List.cons_prefix_cons] at hp
          exact hca hp.1.symm
        simp [strncmp, hca, toNat_sub_ne_zero hca, this]

/-- `strchr` finds nothing in a line without the character. -/
theorem strchr_none (l t : List Char) (h : NUL ∉ l) (hs : SP ∉ l) :
    strchr (l ++ NUL :: t) SP = none := by
  induction l with
  | nil => simp [strchr, NUL_ne_SP]
  | cons c cs ih =>
    have hc : c ≠ SP := fun e => hs (by simp [e])
    have hcs : SP ∉ cs := fun m => hs (by simp [m])
    have hn : NUL ∉ cs := fun m => h (by simp [m])
    have hc0 : c ≠ NUL := fun e => h (by simp [e])
    simp [strchr, hc, hc0, ih hn hcs]

/-- `strchr` stops at the first space of the line. -/
theorem strchr_first (a m : List Char) (h : NUL ∉ a) (hs : SP ∉ a) :
    strchr (a ++ SP :: m) SP = some (SP :: m) := by
  induction a with
  | nil => simp [strchr]
  | cons c cs ih =>
    have hc : c ≠ SP := fun e => hs (by simp [e])
    have hcs : SP ∉ cs := fun m => hs (by simp [m])
    have hn : NUL ∉ cs := fun m => h (by simp [m])
    have hc0 : c ≠ NUL := fun e => h (by simp [e])
    simp [strchr, hc, hc0, ih hn hcs]

/-- What one `fgets` call takes when a whole line and its newline fit. -/
theorem readLine_line (n : Nat) (l rest : List Char) (h : NL ∉ l)
    (hn : l.length < n) : readLine n (l ++ NL :: rest) = l ++ [NL] := by
  induction l generalizing n with
  | nil =>
    cases n with
    | zero => simp at hn
    | succ n => simp [readLine]
  | cons c cs ih =>
    have hc : c ≠ NL := fun e => h (by simp [e])
    have hcs : NL ∉ cs := fun m => h (by simp [m])
    cases n with
    | zero => simp at hn
    | succ n =>
      have hn2 : cs.length < n := by simpa using hn
      simp [readLine, hc, ih n hcs hn2]

/-- `fgets` on a line that fits: the line, its newline and a NUL are stored,
and the input after the newline is left. -/
theorem fgets_line (s : Mem) (size : Nat) (l rest : List Char) (h : NL ∉ l)
    (hn : l.length + 2 ≤ size) :
    fgets s size (l ++ NL :: rest)
      = (l ++ NL :: NUL :: s.drop (l.length + 2), rest) := by
  have hr := readLine_line (size - 1) l rest h (by omega)
  simp [fgets, hr]

/-- The strip after `fgets` on a NUL-free line that fits: the newline is
overwritten with a NUL. -/
theorem strip_line (l t : List Char) (h : NUL ∉ l) :
    strip (l ++ NL :: NUL :: t) = some (l ++ NUL :: NUL :: t) := by
  have hn : NUL ∉ l ++ [NL] := by
    simp only [List.mem_append, List.mem_singleton, not_or]
    exact ⟨h, NUL_ne_NL⟩
  have e : l ++ NL :: NUL :: t = (l ++ [NL]) ++ NUL :: t := by simp
  have hl := strlen_append_nul (l ++ [NL]) t hn
  rw [← e] at hl
  simp [strip, hl, List.set_append]

/-! ## Lemmas on console -/

theorem strncmp_exit (l t : List Char) (h : NUL ∉ l) :
    strncmp (l ++ NUL :: t) (lit "exit") 4 = 0 ↔ "exit".toList <+: l :=
  strncmp_zero_iff "exit".toList l t (by decide) h

theorem strncmp_ls (l t : List Char) (h : NUL ∉ l) :
    strncmp (l ++ NUL :: t) (lit "ls") 2 = 0 ↔ "ls".toList <+: l :=
  strncmp_zero_iff "ls".toList l t (by decide) h

theorem strncmp_send (l t : List Char) (h : NUL ∉ l) :
    strncmp (l ++ NUL :: t) (lit "send ") 5 = 0 ↔ "send ".toList <+: l :=
  strncmp_zero_iff "send ".toList l t (by decide) h

/-- One pass of the loop on a line that fits: the prompt, then the dispatch
on the buffer that holds the line. -/
theorem console_iter_line (username buffer : Mem) (name l rest : List Char)
    (hu : cstr username = some name) (hl : IsLine l) :
    console_iter username buffer (l ++ NL :: rest)
      = (console_dispatch (lineBuffer l buffer)).map
          (fun r => (prompt name :: r.1, r.2, lineBuffer l buffer, rest)) := by
  obtain ⟨h1, h2, h3⟩ := hl
  have hf := fgets_line buffer BUFF_SIZE l rest h1 h3
  have hs := strip_line l (buffer.drop (l.length + 2)) h2
  unfold console_iter
  simp only [hu, hf, hs, lineBuffer, Option.bind_eq_bind, Option.some_bind]
  cases console_dispatch (l ++ NUL :: NUL :: List.drop (l.length + 2) buffer) <;> rfl

/-- A non-empty line that begins with none of `exit`, `ls`, `send ` reaches
the final `error()`. -/
theorem dispatch_other (l t : List Char) (h : NUL ∉ l) (hne : l ≠ [])
    (h1 : ¬ "exit".toList <+: l) (h2 : ¬ "ls".toList <+: l)
    (h3 : ¬ "send ".toList <+: l) :
    console_dispatch (l ++ NUL :: t) = some (error, Control.loop) := by
  unfold console_dispatch
  rw [if_neg (by rw [strcmp_empty l t h]; exact hne),
    if_neg (by rw [strncmp_exit l t h]; exact h1),
    if_neg (by rw [strncmp_ls l t h]; exact h2),
    if_neg (by rw [strncmp_send l t h]; exact h3)]

/-- A line that begins with `exit` takes the exit branch. -/
theorem dispatch_exit (l t : List Char) (h : NUL ∉ l)
    (h1 : "exit".toList <+: l) :
    console_dispatch (l ++ NUL :: t)
      = some ([Event.write (lit "exit") 6, Event.pthread_mutex_destroy,
          Event.pthread_cond_destroy], Control.exited) := by
  have hne : l ≠ [] := by
    rintro rfl
    simp at h1
  unfold console_dispatch
  rw [if_neg (by rw [strcmp_empty l t h]; exact hne),
    if_pos (by rw [strncmp_exit l t h]; exact h1)]

/-- A line `send <rest>` reaches the syntax check of the send branch. -/
theorem dispatch_send_branch (rest t : List Char) (h : NUL ∉ rest) :
    console_dispatch ("send ".toList ++ rest ++ NUL :: t)
      = match strchr (rest ++ NUL :: t) SP with
        | none => some (error, Control.loop)
        | some tmp =>
          (strlen (rest ++ NUL :: t)).bind fun lr =>
            (strlen tmp.tail).bind fun lm =>
              some ([Event.write ("send ".toList ++ rest ++ NUL :: t)
                (5 + lr + 1 + lm + 1)], Control.loop) := by
  have hn : NUL ∉ "send ".toList ++ rest := by
    simp only [List.mem_append, not_or]
    exact ⟨by decide, h⟩
  have hne : "send ".toList ++ rest ≠ [] := by simp
  have h1 : ¬ "exit".toList <+: "send ".toList ++ rest := by
    intro hp
    have := List.cons_prefix_cons.mp hp
    exact absurd this.1 (by decide)
  have h2 : ¬ "ls".toList <+: "send ".toList ++ rest := by
    intro hp
    have := List.cons_prefix_cons.mp hp
    exact absurd this.1 (by decide)
  have h3 : "send ".toList <+: "send ".toList ++ rest := List.prefix_append _ _
  have hc : strchr ("send ".toList ++ rest ++ NUL :: t) SP
      = some (SP :: (rest ++ NUL :: t)) := by
    have := strchr_first "send".toList (rest ++ NUL :: t) (by decide) (by decide)
    simpa using this
  unfold console_dispatch
  rw [if_neg (by rw [strcmp_empty _ t hn]; exact hne),
    if_neg (by rw [strncmp_exit _ t hn]; exact h1),
    if_neg (by rw [strncmp_ls _ t hn]; exact h2),
    if_pos (by rw [strncmp_send _ t hn]; exact h3)]
  simp only [hc, List.tail_cons]
  cases strchr (rest ++ NUL :: t) SP <;> rfl

/-- A `send` line without a second space fails the syntax check. -/
theorem dispatch_send_short (rest t : List Char) (h : NUL ∉ rest)
    (hs : SP ∉ rest) :
    console_dispatch ("send ".toList ++ rest ++ NUL :: t)
      = some (error, Control.loop) := by
  rw [dispatch_send_branch rest t h, strchr_none rest t h hs]

/-- A pass that ends at `continue` is followed by the rest of the loop on the
buffer and the input it leaves. -/
theorem console_loop_continue (fuel : Nat) (username buffer buffer2 : Mem)
    (stdin stdin2 : List Char) (events : List Event)
    (h : console_iter username buffer stdin
      = some (events, Control.loop, buffer2, stdin2)) :
    console_loop (fuel + 1) username buffer stdin
      = (console_loop fuel username buffer2 stdin2).map
          (fun r => (events ++ r.1, r.2.1, r.2.2)) := by
  simp only [console_loop, h, Option.bind_eq_bind, Option.some_bind]
  cases console_loop fuel username buffer2 stdin2 <;> rfl

/-- A pass that ends in `_exit` ends the loop, whatever fuel is left. -/
theorem console_loop_exited (fuel : Nat) (username buffer buffer2 : Mem)
    (stdin stdin2 : List Char) (events : List Event)
    (h : console_iter username buffer stdin
      = some (events, Control.exited, buffer2, stdin2)) :
    console_loop (fuel + 1) username buffer stdin
      = some (events, Control.exited, stdin2) := by
  simp [console_loop, h]

/-! ## Lemmas on the name and the receiver -/

theorem readLine_length (n : Nat) (s : List Char) : (readLine n s).length ≤ n := by
  induction n generalizing s with
  | zero => simp [readLine]
  | succ n ih =>
    cases s with
    | nil => simp [readLine]
    | cons c cs =>
      by_cases hc : c = NL
      · simp [readLine, hc]
      · have := ih cs
        simp [readLine, hc]
        omega

/-- The string at the start of an object ends at the first NUL at the
latest. -/
theorem cstr_length_le (g t s : List Char) (h : cstr (g ++ NUL :: t) = some s) :
    s.length ≤ g.length := by
  induction g generalizing s with
  | nil =>
    simp [cstr] at h
    subst h
    simp
  | cons c cs ih =>
    by_cases hc : c = NUL
    · simp [cstr, hc] at h
      subst h
      simp
    · simp only [List.cons_append, cstr, hc, if_false, Option.map_eq_some'] at h
      obtain ⟨s', hs', rfl⟩ := h
      have := ih s' hs'
      simp
      omega

/-- The string at the start of received data: the bytes before the first NUL
among them, when a NUL follows the data. -/
theorem cstr_takeWhile (d t : List Char) :
    cstr (d ++ NUL :: t) = some (d.takeWhile (fun c => c ≠ NUL)) := by
  induction d with
  | nil => simp [cstr]
  | cons c cs ih =>
    by_cases hc : c = NUL
    · simp [cstr, hc]
    · simp [cstr, hc, ih, List.takeWhile_cons]

/-- What the strip does when it is defined: the string in the array loses its
last character. -/
theorem strip_some (m m2 : Mem) (h : strip m = some m2) :
    ∃ s t, m = s ++ NUL :: t ∧ NUL ∉ s ∧ s ≠ [] ∧
      m2 = s.dropLast ++ NUL :: NUL :: t := by
  unfold strip strlen at h
  cases hc : cstr m with
  | none => simp [hc] at h
  | some s =>
    obtain ⟨hn, t, ht⟩ := cstr_some m s hc
    simp only [hc, Option.map_some', Option.bind_eq_bind, Option.some_bind] at h
    by_cases h0 : s.length = 0
    · simp [h0] at h
    · simp only [h0, if_false, Option.some.injEq] at h
      have hs : s ≠ [] := fun e => h0 (by simp [e])
      refine ⟨s, t, ht, hn, hs, ?_⟩
      obtain ⟨s', c, rfl⟩ : ∃ s' c, s = s' ++ [c] :=
        ⟨s.dropLast, s.getLast hs, (List.dropLast_append_getLast hs).symm⟩
      subst ht
      rw [← h]
      simp [List.set_append]

/-- The array `main` stores holds a string of at most 18 characters. -/
theorem read_username_some (stdin rest : List Char) (username : Mem)
    (h : read_username stdin = some (username, rest)) :
    ∃ name, cstr username = some name ∧ name.length ≤ 18 := by
  unfold read_username at h
  simp only [Option.bind_eq_bind, Option.bind_eq_some, Option.some.injEq,
    Prod.mk.injEq] at h
  obtain ⟨m2, hm2, rfl, _⟩ := h
  obtain ⟨s, t, hm, hn, hs, rfl⟩ := strip_some _ _ hm2
  refine ⟨s.dropLast, cstr_append_nul _ _ (fun hm => hn (List.dropLast_subset s hm)), ?_⟩
  have hlen : s.length ≤ 19 := by
    unfold fgets at hm
    by_cases hg : readLine (USERNAME_MAX_SIZE - 1) stdin = []
    · simp only [hg, if_true] at hm
      have h0 : List.replicate USERNAME_MAX_SIZE NUL
          = [] ++ NUL :: List.replicate 19 NUL := by decide
      have hc : cstr (s ++ NUL :: t) = some s := cstr_append_nul s t hn
      rw [← hm, h0] at hc
      have h1 := cstr_length_le [] _ s hc
      simp only [List.length_nil] at h1
      omega
    · simp only [hg, if_false] at hm
      have hc : cstr (s ++ NUL :: t) = some s := cstr_append_nul s t hn
      rw [← hm] at hc
      have h1 := cstr_length_le _ _ s hc
      have h2 := readLine_length (USERNAME_MAX_SIZE - 1) stdin
      have : USERNAME_MAX_SIZE - 1 = 19 := by decide
      omega
  simp
  omega

theorem malloc_length (size : Nat) (junk : Mem) : (malloc size junk).length = size := by
  simp [malloc]

theorem register_text_length : ("register username ".toList).length = 18 := rfl

/-- The formatted block, split at the NUL of the text. -/
theorem formatted_eq (junk : Mem) (name : List Char) :
    formatted junk name = ("register username ".toList ++ name) ++
      (NUL :: (malloc (USERNAME_MAX_SIZE + 18) junk).drop
        (("register username ".toList ++ name ++ [NUL]).length)) := by
  unfold formatted
  rw [List.append_assoc ("register username ".toList ++ name) [NUL]]
  rfl

/-- The registration of a stored name of at most 19 characters: `sprintf`
fits the block, and the write is passed the length of the text. -/
theorem register_username_eq (junk username : Mem) (name : List Char)
    (hn : cstr username = some name) (hlen : name.length ≤ 19) :
    register_username junk username
      = some [Event.write (formatted junk name) (18 + name.length)] := by
  obtain ⟨hnul, _⟩ := cstr_some username name hn
  have hfit : ("register username ".toList ++ name ++ [NUL]).length
      ≤ (malloc (USERNAME_MAX_SIZE + 18) junk).length := by
    rw [malloc_length, List.length_append, List.length_append,
      register_text_length]
    simp only [List.length_singleton, USERNAME_MAX_SIZE]
    omega
  have hno : NUL ∉ "register username ".toList ++ name := by
    simp only [List.mem_append, not_or]
    exact ⟨by decide, hnul⟩
  have hlen2 : strlen (formatted junk name) = some (18 + name.length) := by
    rw [formatted_eq, strlen_append_nul _ _ hno, List.length_append,
      register_text_length]
  unfold register_username sprintf
  simp only [hn, Option.bind_eq_bind, Option.some_bind, hfit, if_true]
  change (strlen (formatted junk name)).bind _ = _
  rw [hlen2]
  rfl

/-- The bytes the registration write sends: the text, without its NUL. -/
theorem payload_formatted (junk : Mem) (name : List Char) :
    payload (formatted junk name) (18 + name.length)
      = some ("register username ".toList ++ name) := by
  have hl : ("register username ".toList ++ name).length = 18 + name.length := by
    rw [List.length_append, register_text_length]
  rw [formatted_eq, payload, if_pos (by rw [List.length_append]; omega), ← hl,
    List.take_left]

/-- One pass of the loop on a `send` line without a second space. -/
theorem console_iter_send_short (username buffer : Mem)
    (name rest stdin : List Char) (hu : cstr username = some name)
    (hl : IsLine ("send ".toList ++ rest)) (hs : SP ∉ rest) :
    console_iter username buffer ("send ".toList ++ rest ++ NL :: stdin)
      = some ([prompt name, Event.stderr usage], Control.loop,
          lineBuffer ("send ".toList ++ rest) buffer, stdin) := by
  have hn : NUL ∉ rest := fun m => hl.2.1 (List.mem_append_right _ m)
  rw [console_iter_line username buffer name _ stdin hu hl, lineBuffer,
    dispatch_send_short rest _ hn hs]
  rfl

set_option maxRecDepth 100000 in
/-- C1, the code evaluated: on the line `send alice hello world` the one write
of `console` is passed the byte count 35, not 5 + 5 + 1 + 11 = 22 (nor 23,
the command with its NUL): `recipient` points at `alice hello world`, so the
body is counted twice, and 13 bytes of the buffer behind the command are sent
with it. On a line that fits the buffer the count can pass its end: for
`send bob ` followed by 123 letters it is 257 on the 256 bytes. -/
theorem send_alice_count_is_35 :
    console_iter bob zeroed "send alice hello world\n".toList
        = some ([prompt "bob".toList,
            Event.write (lineBuffer "send alice hello world".toList zeroed) 35],
            Control.loop, lineBuffer "send alice hello world".toList zeroed,
            []) ∧
      (35 : Nat) ≠ "send ".length + "alice".length + 1 + "hello world".length ∧
      (35 : Nat)
        ≠ "send ".length + "alice".length + 1 + "hello world".length + 1 ∧
      payload (lineBuffer "send alice hello world".toList zeroed) 35
        = some ("send alice hello world".toList ++ List.replicate 13 NUL) ∧
      IsLine longSend ∧
      (console_iter bob zeroed (longSend ++ [NL])).map
          (fun x => (writes x.1).map (fun w => (w.1.length, w.2, payload w.1 w.2)))
        = some [(256, 257, none)] := by
  refine ⟨by rfl, by decide, by decide, by rfl, by decide, by rfl⟩

/-- C4: for every recipient `r` without a space, the line `send r`, a send
with the body missing, is invalid: one pass of `console` prints the prompt and
the usage error, writes nothing to the connection, and the loop continues
with the next pass on the input that follows the line. -/
theorem send_without_body (fuel : Nat) (username buffer : Mem)
    (name r stdin : List Char) (hu : cstr username = some name) (hs : SP ∉ r)
    (hl : IsLine ("send ".toList ++ r)) :
    console_iter username buffer ("send ".toList ++ r ++ NL :: stdin)
        = some ([prompt name, Event.stderr usage], Control.loop,
            lineBuffer ("send ".toList ++ r) buffer, stdin) ∧
      writes [prompt name, Event.stderr usage] = [] ∧
      console_loop (fuel + 1) username buffer
          ("send ".toList ++ r ++ NL :: stdin)
        = (console_loop fuel username
            (lineBuffer ("send ".toList ++ r) buffer) stdin).map
            (fun x => ([prompt name, Event.stderr usage] ++ x.1, x.2.1, x.2.2)) := by
  have h := console_iter_send_short username buffer name r stdin hu hl hs
  exact ⟨h, rfl, console_loop_continue fuel _ _ _ _ _ _ h⟩

/-- C4 at the line `send alice`. -/
theorem send_without_body_witness :
    console_iter bob zeroed ("send ".toList ++ "alice".toList ++ NL :: [])
        = some ([prompt "bob".toList, Event.stderr usage], Control.loop,
            lineBuffer ("send ".toList ++ "alice".toList) zeroed, []) ∧
      writes [prompt "bob".toList, Event.stderr usage] = [] ∧
      console_loop (0 + 1) bob zeroed
          ("send ".toList ++ "alice".toList ++ NL :: [])
        = (console_loop 0 bob
            (lineBuffer ("send ".toList ++ "alice".toList) zeroed) []).map
            (fun x => ([prompt "bob".toList, Event.stderr usage] ++ x.1,
              x.2.1, x.2.2)) :=
  send_without_body 0 bob zeroed "bob".toList "alice".toList [] (by rfl)
    (by decide) (by decide)

/-! ## Lines that are no command, and exit -/

/-- C2, as stated, fails: the first token of the line `lsblk` is none of
`exit`, `ls`, `send`, yet `console` reports no error, writes the two bytes
`ls` to the connection and waits on the condition. -/
theorem lsblk_is_taken_for_ls :
    firstToken "lsblk".toList ≠ "exit".toList ∧
      firstToken "lsblk".toList ≠ "ls".toList ∧
      firstToken "lsblk".toList ≠ "send".toList ∧
      console_iter bob zeroed "lsblk\n".toList
        = some ([prompt "bob".toList, Event.pthread_mutex_lock,
            Event.write (lit "ls") 2, Event.pthread_cond_wait,
            Event.pthread_mutex_unlock],
            Control.loop, lineBuffer "lsblk".toList zeroed, []) := by
  refine ⟨by decide, by decide, by decide, by rfl⟩

/-- C2, amended: for every non-empty input line that begins with none of the
character sequences `exit`, `ls` and `send ` (so `sender bob hi`, but not
`lsblk` or `exits`), one pass of `console` prints the prompt and the usage
error and nothing else: no byte is written to the connection, the process
does not terminate and the loop does not wait, it goes on to the next
prompt. -/
theorem other_line_is_usage_error (username buffer : Mem)
    (name l stdin : List Char) (hu : cstr username = some name)
    (hl : IsLine l) (hne : l ≠ []) (h1 : ¬ "exit".toList <+: l)
    (h2 : ¬ "ls".toList <+: l) (h3 : ¬ "send ".toList <+: l) :
    console_iter username buffer (l ++ NL :: stdin)
      = some ([prompt name, Event.stderr usage], Control.loop,
          lineBuffer l buffer, stdin) := by
  rw [console_iter_line username buffer name l stdin hu hl, lineBuffer,
    dispatch_other l _ hl.2.1 hne h1 h2 h3]
  rfl

/-- The amended C2 at the line `sender bob hi`. -/
theorem other_line_is_usage_error_witness :
    console_iter bob zeroed ("sender bob hi".toList ++ NL :: [])
      = some ([prompt "bob".toList, Event.stderr usage], Control.loop,
          lineBuffer "sender bob hi".toList zeroed, []) :=
  other_line_is_usage_error bob zeroed "bob".toList "sender bob hi".toList []
    (by rfl) (by decide) (by decide) (by decide) (by decide) (by decide)

/-- C5, the code evaluated: on the line `exit`, `console` performs one write
and ends without consuming the input that follows, but the write is passed
the byte count 6 for the literal `exit`, an object of 5 bytes: what is sent is
not the 4 bytes `exit`, it runs past the end of the literal. -/
theorem exit_write_count_is_6 (fuel : Nat) (stdin : List Char) :
    console (fuel + 1) bob ("exit".toList ++ NL :: stdin)
        = some ([Event.stdout welcome, prompt "bob".toList,
            Event.write (lit "exit") 6, Event.pthread_mutex_destroy,
            Event.pthread_cond_destroy], Control.exited, stdin) ∧
      (lit "exit").length = 5 ∧
      payload (lit "exit") 6 = none ∧
      payload (lit "exit") 4 = some "exit".toList := by
  have hl : IsLine "exit".toList := by decide
  have hu : cstr bob = some "bob".toList := by rfl
  have hi : console_iter bob (List.replicate BUFF_SIZE NUL)
      ("exit".toList ++ NL :: stdin)
      = some ([prompt "bob".toList, Event.write (lit "exit") 6,
          Event.pthread_mutex_destroy, Event.pthread_cond_destroy],
          Control.exited, lineBuffer "exit".toList (List.replicate BUFF_SIZE NUL),
          stdin) := by
    rw [console_iter_line bob _ "bob".toList "exit".toList stdin hu hl,
      lineBuffer, dispatch_exit "exit".toList _ hl.2.1 (List.prefix_refl _)]
    rfl
  refine ⟨?_, by decide, by decide, by decide⟩
  have hloop := console_loop_exited fuel _ _ _ _ _ _ hi
  simp only [console, hloop, Option.bind_eq_bind, Option.some_bind]

/-! ## The display name and its registration -/

/-- C6: for every display name that `main` stores, `register_username`
performs exactly one write, whose byte count is 18 + len(name) and whose
payload is exactly `register username ` followed by the name, with no
terminator and no padding; `main` performs it exactly once, after the
connection is set up and the name read, before `pthread_create` starts the
receiver, and `console` is entered only after that. -/
theorem registration_sent_once (fuel : Nat) (junk : Mem)
    (stdin rest : List Char) (username : Mem)
    (h : read_username stdin = some (username, rest)) :
    ∃ name, cstr username = some name ∧
      register_username junk username
        = some [Event.write (formatted junk name) (18 + name.length)] ∧
      payload (formatted junk name) (18 + name.length)
        = some ("register username ".toList ++ name) ∧
      main_boot junk stdin
        = some (bootEvents ++
            [Event.write (formatted junk name) (18 + name.length),
              Event.pthread_create], username, rest) ∧
      writes (bootEvents ++
            [Event.write (formatted junk name) (18 + name.length),
              Event.pthread_create])
        = [(formatted junk name, 18 + name.length)] ∧
      main fuel junk stdin
        = (console fuel username rest).map
            (fun x => (bootEvents ++
              [Event.write (formatted junk name) (18 + name.length),
                Event.pthread_create] ++ x.1, x.2)) := by
  obtain ⟨name, hn, hlen⟩ := read_username_some stdin rest username h
  have hr := register_username_eq junk username name hn (by omega)
  have hb : main_boot junk stdin
      = some (bootEvents ++
          [Event.write (formatted junk name) (18 + name.length),
            Event.pthread_create], username, rest) := by
    unfold main_boot
    simp only [h, hr, Option.bind_eq_bind, Option.some_bind]
    rfl
  refine ⟨name, hn, hr, payload_formatted junk name, hb, rfl, ?_⟩
  unfold main
  simp only [hb, Option.bind_eq_bind, Option.some_bind]
  cases console fuel username rest <;> rfl

/-- C6 at the input `bob`, followed by the line `exit` for the console. -/
theorem registration_sent_once_witness :
    ∃ name, cstr bob = some name ∧
      register_username [] bob
        = some [Event.write (formatted [] name) (18 + name.length)] ∧
      payload (formatted [] name) (18 + name.length)
        = some ("register username ".toList ++ name) ∧
      main_boot [] "bob\nexit\n".toList
        = some (bootEvents ++
            [Event.write (formatted [] name) (18 + name.length),
              Event.pthread_create], bob, "exit\n".toList) ∧
      writes (bootEvents ++
            [Event.write (formatted [] name) (18 + name.length),
              Event.pthread_create])
        = [(formatted [] name, 18 + name.length)] ∧
      main 1 [] "bob\nexit\n".toList
        = (console 1 bob "exit\n".toList).map
            (fun x => (bootEvents ++
              [Event.write (formatted [] name) (18 + name.length),
                Event.pthread_create] ++ x.1, x.2)) :=
  registration_sent_once 1 [] "bob\nexit\n".toList "exit\n".toList bob (by rfl)

/-- C9, the code evaluated: a name of 20 characters entered at the prompt is
not stored as entered. `fgets` takes 19 characters, the strip removes the
19th, so 18 are stored; the 20th character and the newline stay in the input
and the first pass of `console` takes them for a command. -/
theorem twenty_character_name_is_cut :
    "abcdefghijklmnopqrst".length = 20 ∧
      read_username "abcdefghijklmnopqrst\n".toList
        = some ("abcdefghijklmnopqr".toList ++ [NUL, NUL], "t\n".toList) ∧
      cstr ("abcdefghijklmnopqr".toList ++ [NUL, NUL])
        = some "abcdefghijklmnopqr".toList ∧
      console_iter ("abcdefghijklmnopqr".toList ++ [NUL, NUL]) zeroed
          "t\n".toList
        = some ([prompt "abcdefghijklmnopqr".toList, Event.stderr usage],
            Control.loop, lineBuffer "t".toList zeroed, []) := by
  refine ⟨by decide, by rfl, by rfl, by rfl⟩

/-- C10: for every display name that `main` stores, the string that
`register_username` formats, `register username ` followed by the name and
the terminating NUL, is at most USERNAME_MAX_SIZE + 18 = 38 bytes long (the
name has at most 19 characters), so `sprintf` stays inside the block that
`malloc` returned. -/
theorem registration_fits_block (junk : Mem) (stdin rest : List Char)
    (username : Mem) (h : read_username stdin = some (username, rest)) :
    ∃ name, cstr username = some name ∧ name.length ≤ 19 ∧
      ("register username ".toList ++ name ++ [NUL]).length
        ≤ USERNAME_MAX_SIZE + 18 ∧
      USERNAME_MAX_SIZE + 18 = 38 ∧
      sprintf (malloc (USERNAME_MAX_SIZE + 18) junk) username
        = some (formatted junk name) := by
  obtain ⟨name, hn, hlen⟩ := read_username_some stdin rest username h
  have hfit : ("register username ".toList ++ name ++ [NUL]).length
      ≤ USERNAME_MAX_SIZE + 18 := by
    rw [List.length_append, List.length_append, register_text_length]
    simp only [List.length_singleton, USERNAME_MAX_SIZE]
    omega
  refine ⟨name, hn, by omega, hfit, rfl, ?_⟩
  unfold sprintf
  simp only [hn, Option.bind_eq_bind, Option.some_bind, malloc_length, hfit,
    if_true]
  rfl

/-- C10 at the input `bob`. -/
theorem registration_fits_block_witness :
    ∃ name, cstr bob = some name ∧ name.length ≤ 19 ∧
      ("register username ".toList ++ name ++ [NUL]).length
        ≤ USERNAME_MAX_SIZE + 18 ∧
      USERNAME_MAX_SIZE + 18 = 38 ∧
      sprintf (malloc (USERNAME_MAX_SIZE + 18) []) bob
        = some (formatted [] name) :=
  registration_fits_block [] "bob\nexit\n".toList "exit\n".toList bob (by rfl)

/-! ## The receiver -/

/-- C8, as stated, fails: on a successful read of the 3 bytes `h`, NUL, `i`
the receiver prints `h` and the line terminator only, not the 3 bytes that
were received. -/
theorem receiver_stops_at_nul :
    ("h".toList ++ NUL :: "i".toList).length = 3 ∧
      receiver_iter (some ("h".toList ++ NUL :: "i".toList))
        = some [Event.pthread_mutex_lock, Event.stdout ("h".toList ++ [NL]),
            Event.pthread_cond_signal, Event.pthread_mutex_unlock] ∧
      "h".toList ++ [NL] ≠ ("h".toList ++ NUL :: "i".toList) ++ [NL] := by
  refine ⟨by decide, by rfl, by decide⟩

/-- C8, amended: for every successful inbound read of n bytes with
1 <= n <= 255, one pass of `receiver` prints the received bytes up to the
first NUL among them, followed by the line terminator, which is all n bytes
when none of them is NUL; the print precedes the single signal of the
condition, both under the lock. -/
theorem receiver_prints_text (data : List Char) (h1 : 1 ≤ data.length)
    (h2 : data.length < BUFF_SIZE) :
    receiver_iter (some data)
        = some [Event.pthread_mutex_lock,
            Event.stdout (data.takeWhile (fun c => c ≠ NUL) ++ [NL]),
            Event.pthread_cond_signal, Event.pthread_mutex_unlock] ∧
      (NUL ∉ data ↔ data.takeWhile (fun c => c ≠ NUL) = data) := by
  constructor
  · have ht : data.take BUFF_SIZE = data := List.take_of_length_le (by omega)
    have hd : List.drop data.length (List.replicate BUFF_SIZE NUL)
        = NUL :: List.replicate (BUFF_SIZE - data.length - 1) NUL := by
      rw [List.drop_replicate]
      have : BUFF_SIZE - data.length = (BUFF_SIZE - data.length - 1) + 1 := by
        omega
      rw [this, List.replicate_succ]
      simp
    have hlt : ¬ ((data.length : Int) < 1) := by omega
    unfold receiver_iter read
    simp only [ht, hd, hlt, if_false, cstr_takeWhile, Option.bind_eq_bind,
      Option.some_bind]
  · rw [List.takeWhile_eq_self_iff]
    constructor
    · intro hn c hc
      simp only [ne_eq, decide_eq_true_eq]
      rintro rfl
      exact hn hc
    · intro hall hm
      have := hall NUL hm
      simp at this

/-- The amended C8 at a read of the two bytes `hi`. -/
theorem receiver_prints_text_witness :
    receiver_iter (some "hi".toList)
        = some [Event.pthread_mutex_lock,
            Event.stdout ("hi".toList.takeWhile (fun c => c ≠ NUL) ++ [NL]),
            Event.pthread_cond_signal, Event.pthread_mutex_unlock] ∧
      (NUL ∉ "hi".toList ↔ "hi".toList.takeWhile (fun c => c ≠ NUL) = "hi".toList) :=
  receiver_prints_text "hi".toList (by decide) (by decide)

end ChatClient
